import Mathlib

/-!
Verification of the kinda-lang construct-recognition and transformation engine.

The Python sources under `kinda/` are embedded shallowly: lines are `String`s
(`List Char` internally), the transformer functions are executable Lean
functions, and the module-global `used_helpers` set is threaded explicitly as
state.  The regex patterns of the grammar table (`constructs.py`) are realised
as deterministic character-level matchers; for these patterns (word runs,
whitespace runs, literal fragments, complement character classes) maximal-munch
matching coincides with the backtracking semantics of the originals.
-/

namespace Kinda

/-- Python whitespace characters (`\s` class), as they can occur in one line. -/
def isWs (c : Char) : Bool :=
  c = ' ' || c = '\t' || c = '\n' || c = '\r' || c = '\x0b' || c = '\x0c'

/-- Python `\w` word-character class. -/
def isWordChar (c : Char) : Bool := c.isAlphanum || c = '_'

/-- Python identifier start class `[a-zA-Z_]`. -/
def isIdentStart (c : Char) : Bool := c.isAlpha || c = '_'

/-- `str.strip()` on the character list of one line. -/
def stripL (l : List Char) : List Char :=
  ((l.dropWhile isWs).reverse.dropWhile isWs).reverse

/-- `str.strip()` at the `String` level. -/
def stripStr (s : String) : String := String.mk (stripL s.data)

/-- `len(line) - len(line.lstrip())`: the indentation width of a line. -/
def lineIndent (s : String) : Nat := (s.data.takeWhile isWs).length

/-- Boolean prefix test on character lists. -/
def startsWithL (p l : List Char) : Bool := p.isPrefixOf l

/-- Boolean substring test (Python `needle in hay`). -/
def containsSub (needle : List Char) : List Char → Bool
  | [] => needle.isEmpty
  | c :: rest => needle.isPrefixOf (c :: rest) || containsSub needle rest

/-- The kinds of inline `~ish` sub-expressions the Inline Composer recognises
(`ish_value`, `ish_comparison`, and a comparison whose right operand is itself
an `~ish` value). -/
inductive IshKind
  | value
  | comp
  | compVal
  deriving DecidableEq, Repr

/-- One inline `~ish` match: kind, captured groups, and byte span. -/
structure IshMatch where
  kind : IshKind
  g1 : String
  g2 : String
  start : Nat
  stop : Nat
  deriving DecidableEq, Repr

/-- Anchored match of the grammar-table pattern for an approximate value,
`(\d+(?:\.\d+)?)~ish`, at the head of `l`.  Returns the captured literal and
the matched length. -/
def matchIshValueAt (l : List Char) : Option (String × Nat) :=
  let ds := l.takeWhile Char.isDigit
  if ds = [] then none
  else
    let r1 := l.drop ds.length
    let fr :=
      match r1 with
      | '.' :: r2 =>
        let fs := r2.takeWhile Char.isDigit
        if fs = [] then ([] : List Char) else '.' :: fs
      | _ => ([] : List Char)
    let r3 := l.drop (ds.length + fr.length)
    if startsWithL ['~', 'i', 's', 'h'] r3 then
      some (String.mk (ds ++ fr), ds.length + fr.length + 4)
    else none

/-- Anchored match of the grammar-table pattern for an approximate comparison,
`(\w+)\s*~ish\s*([^#;\s]+)`, at the head of `l`. -/
def matchIshCompAt (l : List Char) : Option (String × String × Nat) :=
  let w := l.takeWhile isWordChar
  if w = [] then none
  else
    let r1 := l.drop w.length
    let s1 := r1.takeWhile isWs
    let r2 := r1.drop s1.length
    if startsWithL ['~', 'i', 's', 'h'] r2 then
      let r3 := r2.drop 4
      let s2 := r3.takeWhile isWs
      let r4 := r3.drop s2.length
      let v := r4.takeWhile (fun c => !isWs c && c ≠ '#' && c ≠ ';')
      if v = [] then none
      else some (String.mk w, String.mk v, w.length + s1.length + 4 + s2.length + v.length)
    else none

/-- Anchored match of a comparison whose right operand is itself an `~ish`
value, `(\w+)\s*~ish\s*(\d+(?:\.\d+)?)~ish`, at the head of `l`. -/
def matchIshCompValAt (l : List Char) : Option (String × String × Nat) :=
  let w := l.takeWhile isWordChar
  if w = [] then none
  else
    let r1 := l.drop w.length
    let s1 := r1.takeWhile isWs
    let r2 := r1.drop s1.length
    if startsWithL ['~', 'i', 's', 'h'] r2 then
      let r3 := r2.drop 4
      let s2 := r3.takeWhile isWs
      let r4 := r3.drop s2.length
      let ds := r4.takeWhile Char.isDigit
      if ds = [] then none
      else
        let r5 := r4.drop ds.length
        let fr :=
          match r5 with
          | '.' :: r6 =>
            let fs := r6.takeWhile Char.isDigit
            if fs = [] then ([] : List Char) else '.' :: fs
          | _ => ([] : List Char)
        let r7 := r4.drop (ds.length + fr.length)
        if startsWithL ['~', 'i', 's', 'h'] r7 then
          some (String.mk w, String.mk (ds ++ fr),
            w.length + s1.length + 4 + s2.length + ds.length + fr.length + 4)
        else none
    else none

/-- Modelled from the spec: `find_ish_constructs` lives in
`kinda/grammar/python/matchers.py`, which is not among the sources; per §4.3
the Inline Composer scans a line for embedded approximate-value and
approximate-comparison sub-expressions using the grammar table's patterns.
The scan walks left to right, tries the most specific pattern first at each
position, and jumps past accepted matches, producing non-overlapping matches
sorted by start position. -/
def findIshAux : Nat → List Char → Nat → List IshMatch
  | 0, _, _ => []
  | _, [], _ => []
  | fuel + 1, l, pos =>
    match matchIshValueAt l with
    | some (v, len) =>
      ⟨.value, v, "", pos, pos + len⟩ :: findIshAux fuel (l.drop len) (pos + len)
    | none =>
      match matchIshCompValAt l with
      | some (a, b, len) =>
        ⟨.compVal, a, b, pos, pos + len⟩ :: findIshAux fuel (l.drop len) (pos + len)
      | none =>
        match matchIshCompAt l with
        | some (a, b, len) =>
          ⟨.comp, a, b, pos, pos + len⟩ :: findIshAux fuel (l.drop len) (pos + len)
        | none => findIshAux fuel l.tail (pos + 1)

/-- All inline `~ish` matches of one line, leftmost first. -/
def find_ish_constructs (l : List Char) : List IshMatch :=
  findIshAux l.length l 0

/-- The operator characters whose presence rules out the "simple statement"
disambiguation branch (`transformer.py` line 163). -/
def ishOpChars : List Char := ['+', '-', '*', '/', '=', '(', ')', '[', ']', ',']

/-- `any(op in stripped_line for op in [...])` over single-character operators. -/
def hasAnyOpChar (l : List Char) : Bool := l.any (fun c => ishOpChars.contains c)

/-- The operator substrings of the conditional-context check
(`transformer.py` line 185). -/
def condOpStrs : List (List Char) :=
  [['+'], ['-'], ['*'], ['/'], ['=', '='], ['!', '='], ['<'], ['>'], ['<', '='], ['>', '=']]

/-- The dynamically built pattern
`^\s*{left}\s*~ish\s+{right}\s*$` of `transformer.py` line 169, with `left`
and `right` taken literally (`re.escape`). -/
def ishStandaloneRegex (line l r : List Char) : Bool :=
  let a := line.dropWhile isWs
  if startsWithL l a then
    let b := (a.drop l.length).dropWhile isWs
    if startsWithL ['~', 'i', 's', 'h'] b then
      let c := b.drop 4
      let sp := c.takeWhile isWs
      if sp = [] then false
      else
        let d := c.drop sp.length
        if startsWithL r d then (d.drop r.length).all isWs else false
    else false
  else false

/-- The conditional/comparison-context check of `transformer.py` lines 174-187. -/
def ishInConditional (s : List Char) : Bool :=
  startsWithL ['i', 'f', ' '] s ||
  startsWithL ['e', 'l', 'i', 'f', ' '] s ||
  startsWithL ['w', 'h', 'i', 'l', 'e', ' '] s ||
  containsSub [' ', 'i', 'f', ' '] s ||
  containsSub [' ', 'a', 'n', 'd', ' '] s ||
  containsSub [' ', 'o', 'r', ' '] s ||
  condOpStrs.any (fun op => containsSub op s)

/-- The standalone-assignment check of `transformer.py` lines 161-171. -/
def ishStandaloneAssignment (s l r : List Char) : Bool :=
  !hasAnyOpChar s || ishStandaloneRegex s l r

/-- Replacement text and helper registrations for one inline `~ish` match
(`transformer.py` lines 141-208); the disambiguation guards are evaluated on
the stripped original line. -/
def ishReplacement (origLine : List Char) (m : IshMatch) : List Char × List String :=
  match m.kind with
  | .value => (("ish_value(" ++ m.g1 ++ ")").data, ["ish_value"])
  | .comp =>
    let s := stripL origLine
    if ishStandaloneAssignment s m.g1.data m.g2.data && !ishInConditional s then
      ((m.g1 ++ " = ish_value(" ++ m.g1 ++ ", " ++ m.g2 ++ ")").data, ["ish_value"])
    else
      (("ish_comparison(" ++ m.g1 ++ ", " ++ m.g2 ++ ")").data, ["ish_comparison"])
  | .compVal =>
    (("ish_comparison(" ++ m.g1 ++ ", ish_value(" ++ m.g2 ++ "))").data,
      ["ish_comparison", "ish_value"])

/-- Apply replacements for the given matches in the given order, each splice
performed by byte span on the evolving line (`transformer.py` line 211). -/
def applyIshMatches (origLine : List Char) (ms : List IshMatch) :
    List Char × List String :=
  ms.foldl
    (fun acc m =>
      let rep := ishReplacement origLine m
      (acc.1.take m.start ++ rep.1 ++ acc.1.drop m.stop, acc.2 ++ rep.2))
    (origLine, [])

/-- `_transform_ish_constructs` (`transformer.py` lines 133-213): rewrite all
inline `~ish` sub-expressions of a line, rightmost first, collecting the
helpers that were registered in the used-helper set. -/
def transform_ish_constructs (l : List Char) : List Char × List String :=
  let ms := find_ish_constructs l
  if ms = [] then (l, [])
  else applyIshMatches l ms.reverse

/-- Characters that terminate the leftward scan for a fallback's primary
expression at bracket depth zero. -/
def welpStopPrim (c : Char) : Bool :=
  c = '=' || c = ',' || c = ';' || c = ':' || c = '\x7b'

/-- Length of the primary expression of an inline fallback, scanned leftwards
(the argument is the reversed text before `~welp`); brackets are balanced. -/
def scanPrimLen : List Char → Nat → Nat → Nat
  | [], _, acc => acc
  | c :: rest, d, acc =>
    if c = ')' || c = ']' then scanPrimLen rest (d + 1) (acc + 1)
    else if c = '(' || c = '[' then
      if d > 0 then scanPrimLen rest (d - 1) (acc + 1) else acc
    else if d = 0 && welpStopPrim c then acc
    else scanPrimLen rest d (acc + 1)

/-- Length of the fallback expression of an inline fallback, scanned
rightwards from after `~welp`; brackets are balanced and an unmatched closing
bracket, a comment sign or a semicolon ends the expression. -/
def scanFbLen : List Char → Nat → Nat → Nat
  | [], _, acc => acc
  | c :: rest, d, acc =>
    if c = '(' || c = '[' then scanFbLen rest (d + 1) (acc + 1)
    else if c = ')' || c = ']' then
      if d > 0 then scanFbLen rest (d - 1) (acc + 1) else acc
    else if d = 0 && (c = '#' || c = ';') then acc
    else scanFbLen rest d (acc + 1)

/-- One inline `~welp` match: primary and fallback groups and the byte span
that the rewrite replaces. -/
structure WelpMatch where
  g1 : String
  g2 : String
  start : Nat
  stop : Nat
  deriving DecidableEq, Repr

/-- Modelled from the spec: `find_welp_constructs` lives in
`kinda/grammar/python/matchers.py`, which is not among the sources; per §4.3
the Inline Composer rewrites fallback sub-expressions `EXPR ~welp DEFAULT`
in place, so the primary expression extends leftwards from the operator to
the enclosing expression boundary (an assignment sign, an opening bracket or
the start of the line) and the fallback extends rightwards to the enclosing
boundary, with brackets balanced. -/
def findWelpAux (line : List Char) : Nat → Nat → List WelpMatch
  | 0, _ => []
  | fuel + 1, i =>
    if i < line.length then
      if startsWithL ['~', 'w', 'e', 'l', 'p'] (line.drop i) then
        let pre := line.take i
        let primLen := scanPrimLen pre.reverse 0 0
        let pRaw := i - primLen
        let wsp := ((pre.drop pRaw).takeWhile isWs).length
        let pStart := pRaw + wsp
        let post := line.drop (i + 5)
        let wsn := (post.takeWhile isWs).length
        let fbStart := i + 5 + wsn
        let fbLen := scanFbLen (post.drop wsn) 0 0
        if pStart < i && 0 < fbLen then
          ⟨String.mk (pre.drop pStart), String.mk ((post.drop wsn).take fbLen),
            pStart, fbStart + fbLen⟩ :: findWelpAux line fuel (fbStart + fbLen)
        else findWelpAux line fuel (i + 1)
      else findWelpAux line fuel (i + 1)
    else []

/-- All inline `~welp` matches of one line, leftmost first. -/
def find_welp_constructs (l : List Char) : List WelpMatch :=
  findWelpAux l (l.length + 1) 0

/-- `_transform_welp_constructs` (`transformer.py` lines 216-244): rewrite all
inline `~welp` sub-expressions of a line, rightmost first; each side is first
stripped and re-run through the `~ish` composer. -/
def transform_welp_constructs (l : List Char) : List Char × List String :=
  let ms := find_welp_constructs l
  if ms = [] then (l, [])
  else
    ms.reverse.foldl
      (fun acc m =>
        let p := transform_ish_constructs (stripL m.g1.data)
        let f := transform_ish_constructs (stripL m.g2.data)
        let rep := "welp_fallback(lambda: ".data ++ p.1 ++ ", ".data ++ f.1 ++ [')']
        (acc.1.take m.start ++ rep ++ acc.1.drop m.stop,
          acc.2 ++ ["welp_fallback"] ++ p.2 ++ f.2))
      (l, [])

/-- The tail `(?:\s*#.*)?(?:;|$)` shared by several grammar patterns: the
remainder is empty, starts with a semicolon, or is a whitespace-prefixed
comment. -/
def tailOk (r : List Char) : Bool :=
  r.isEmpty || r.head? = some ';' || (r.dropWhile isWs).head? = some '#'

/-- The tail `(?:;|$)` of the three-state binary pattern. -/
def tailB (r : List Char) : Bool :=
  r.isEmpty || r.head? = some ';'

/-- Lazy capture `(.+?)` followed by `(?:\s*#.*)?(?:;|$)`: the shortest
non-empty prefix whose remainder satisfies `tailOk`. -/
def lazyDot : List Char → List Char → Option (List Char × List Char)
  | [], _ => none
  | c :: rest, acc =>
    if tailOk rest then some (acc ++ [c], rest) else lazyDot rest (acc ++ [c])

/-- Lazy capture `([^#;]+?)` followed by `(?:\s*#.*)?(?:;|$)`. -/
def lazyValue : List Char → List Char → Option (List Char × List Char)
  | [], _ => none
  | c :: rest, acc =>
    if c = '#' || c = ';' then none
    else if tailOk rest then some (acc ++ [c], rest)
    else lazyValue rest (acc ++ [c])

/-- Dotted module path `[a-zA-Z_]\w*(?:\.[a-zA-Z_]\w*)*`, greedy in the number
of segments; a trailing dot that no identifier follows is left unconsumed. -/
def parseDottedAux : Nat → List Char → Option (List Char × List Char)
  | 0, _ => none
  | _ + 1, [] => none
  | fuel + 1, c :: cs =>
    if isIdentStart c then
      let seg := (c :: cs).takeWhile isWordChar
      let rest := (c :: cs).drop seg.length
      match rest with
      | '.' :: r2 =>
        match parseDottedAux fuel r2 with
        | some (more, rest2) => some (seg ++ '.' :: more, rest2)
        | none => some (seg, rest)
      | _ => some (seg, rest)
    else none

/-- Optional alias clause `\s+as\s+([a-zA-Z_]\w*)`. -/
def parseAlias (r : List Char) : Option (List Char × List Char) :=
  let w1 := r.takeWhile isWs
  if w1 = [] then none
  else
    let r1 := r.drop w1.length
    if startsWithL ['a', 's'] r1 then
      let r2 := r1.drop 2
      let w2 := r2.takeWhile isWs
      if w2 = [] then none
      else
        let r3 := r2.drop w2.length
        match r3 with
        | c :: _ =>
          if isIdentStart c then
            let idn := r3.takeWhile isWordChar
            some (idn, r3.drop idn.length)
          else none
        | [] => none
    else none

/-- Optional fallback clause `\s*~welp\s+(.+?)` of the conditional import. -/
def parseWelpFb (r : List Char) : Option (List Char × List Char) :=
  let r1 := r.dropWhile isWs
  if startsWithL ['~', 'w', 'e', 'l', 'p'] r1 then
    let r2 := r1.drop 5
    let w := r2.takeWhile isWs
    if w = [] then none else lazyDot (r2.drop w.length) []
  else none

/-- Matcher for the fuzzy import pattern of the grammar table
(`constructs.py` lines 342-344). -/
def matchKindaImport (l : List Char) : Option (List (Option String)) :=
  if startsWithL "~kinda import".data l then
    let r0 := l.drop 13
    let w1 := r0.takeWhile isWs
    if w1 = [] then none
    else
      let r1 := r0.drop w1.length
      match parseDottedAux (r1.length + 1) r1 with
      | none => none
      | some (modl, rest) =>
        match parseAlias rest with
        | some (al, rest2) =>
          if tailOk rest2 then some [some (String.mk modl), some (String.mk al)]
          else if tailOk rest then some [some (String.mk modl), none] else none
        | none =>
          if tailOk rest then some [some (String.mk modl), none] else none
  else none

/-- Matcher for the conditional import pattern of the grammar table
(`constructs.py` lines 442-444). -/
def matchMaybeImport (l : List Char) : Option (List (Option String)) :=
  if startsWithL "~maybe import".data l then
    let r0 := l.drop 13
    let w1 := r0.takeWhile isWs
    if w1 = [] then none
    else
      let r1 := r0.drop w1.length
      match parseDottedAux (r1.length + 1) r1 with
      | none => none
      | some (modl, rest) =>
        let modg := some (String.mk modl)
        match parseAlias rest with
        | some (al, rest2) =>
          match parseWelpFb rest2 with
          | some (fb, rest3) =>
            if tailOk rest3 then some [modg, some (String.mk al), some (String.mk fb)]
            else if tailOk rest2 then some [modg, some (String.mk al), none]
            else none
          | none =>
            if tailOk rest2 then some [modg, some (String.mk al), none]
            else
              match parseWelpFb rest with
              | some (fb, rest3) =>
                if tailOk rest3 then some [modg, none, some (String.mk fb)]
                else if tailOk rest then some [modg, none, none] else none
              | none => if tailOk rest then some [modg, none, none] else none
        | none =>
          match parseWelpFb rest with
          | some (fb, rest3) =>
            if tailOk rest3 then some [modg, none, some (String.mk fb)]
            else if tailOk rest then some [modg, none, none] else none
          | none => if tailOk rest then some [modg, none, none] else none
  else none

/-- Matcher for the fuzzy declaration pattern
`~kinda int (\w+)\s*[~=]+\s*([^#;]+?)(?:\s*#.*)?(?:;|$)`
(`constructs.py` line 8). -/
def matchKindaInt (l : List Char) : Option (List (Option String)) :=
  if startsWithL "~kinda int ".data l then
    let r0 := l.drop 11
    let w := r0.takeWhile isWordChar
    if w = [] then none
    else
      let r1 := r0.drop w.length
      let s1 := r1.takeWhile isWs
      let r2 := r1.drop s1.length
      let ops := r2.takeWhile (fun c => c = '~' || c = '=')
      if ops = [] then none
      else
        let r3 := r2.drop ops.length
        let s2 := r3.takeWhile isWs
        let r4 := r3.drop s2.length
        match lazyValue r4 [] with
        | some (v, _) => some [some (String.mk w), some (String.mk v)]
        | none => none
  else none

/-- Matcher for the three-state binary pattern
`~kinda\s+binary\s+(\w+)(?:\s*~\s*probabilities\s*\(([^)]+)\))?(?:;|$)`
(`constructs.py` lines 163-165). -/
def matchKindaBinary (l : List Char) : Option (List (Option String)) :=
  if startsWithL "~kinda".data l then
    let r0 := l.drop 6
    let w1 := r0.takeWhile isWs
    if w1 = [] then none
    else
      let r1 := r0.drop w1.length
      if startsWithL "binary".data r1 then
        let r2 := r1.drop 6
        let w2 := r2.takeWhile isWs
        if w2 = [] then none
        else
          let r3 := r2.drop w2.length
          let nm := r3.takeWhile isWordChar
          if nm = [] then none
          else
            let r4 := r3.drop nm.length
            let probsPart :=
              let a := r4.dropWhile isWs
              if startsWithL ['~'] a then
                let b := (a.drop 1).dropWhile isWs
                if startsWithL "probabilities".data b then
                  let c := (b.drop 13).dropWhile isWs
                  match c with
                  | '(' :: rest =>
                    let inner := rest.takeWhile (fun ch => ch ≠ ')')
                    if inner = [] then none
                    else
                      match rest.drop inner.length with
                      | ')' :: r5 => some (inner, r5)
                      | _ => none
                  | _ => none
                else none
              else none
            match probsPart with
            | some (inner, r5) =>
              if tailB r5 then some [some (String.mk nm), some (String.mk inner)]
              else if tailB r4 then some [some (String.mk nm), none] else none
            | none => if tailB r4 then some [some (String.mk nm), none] else none
      else none
  else none

/-- Matcher for the two probabilistic-conditional patterns
`~sometimes\s*\(([^)]*)\)\s*` and `~maybe\s*\(([^)]*)\)\s*`
(`constructs.py` lines 79 and 105), parametrised by the keyword literal. -/
def matchCondCall (kw l : List Char) : Option (List (Option String)) :=
  if startsWithL kw l then
    let r0 := (l.drop kw.length).dropWhile isWs
    match r0 with
    | '(' :: rest =>
      let inner := rest.takeWhile (fun c => c ≠ ')')
      match rest.drop inner.length with
      | ')' :: _ => some [some (String.mk inner)]
      | _ => none
    | _ => none
  else none

/-- The tail `\s*(?:;|$)` of the probabilistic print pattern. -/
def sortaTail (r : List Char) : Bool :=
  (r.dropWhile isWs).isEmpty || (r.dropWhile isWs).head? = some ';'

/-- Greedy `(.*)\)` capture: the position of the last closing parenthesis
whose remainder satisfies the pattern tail. -/
def lastCloseIdx (r : List Char) : Option Nat :=
  (List.range r.length).foldl
    (fun acc j =>
      if r.get? j == some ')' && sortaTail (r.drop (j + 1)) then some j else acc)
    none

/-- Matcher for the probabilistic print pattern
`~sorta print\s*\((.*)\)\s*(?:;|$)` (`constructs.py` line 40). -/
def matchSortaPrint (l : List Char) : Option (List (Option String)) :=
  if startsWithL "~sorta print".data l then
    let r0 := (l.drop 12).dropWhile isWs
    match r0 with
    | '(' :: rest =>
      match lastCloseIdx rest with
      | some j => some [some (String.mk (rest.take j))]
      | none => none
    | _ => none
  else none

/-- Matcher for the fuzzy reassignment pattern
`(\w+)\s*~=\s*([^#;]+?)(?:\s*#.*)?(?:;|$)` (`constructs.py` line 131). -/
def matchFuzzyReassign (l : List Char) : Option (List (Option String)) :=
  let w := l.takeWhile isWordChar
  if w = [] then none
  else
    let r1 := l.drop w.length
    let s1 := r1.takeWhile isWs
    let r2 := r1.drop s1.length
    if startsWithL ['~', '='] r2 then
      let r3 := r2.drop 2
      let s2 := r3.takeWhile isWs
      let r4 := r3.drop s2.length
      match lazyValue r4 [] with
      | some (v, _) => some [some (String.mk w), some (String.mk v)]
      | none => none
    else none

/-- The greedy split of the fallback header pattern `(.+)\s*~welp\s*(.+)`
(`constructs.py` line 289): the last `~welp` occurrence preceded by at least
one character and followed by at least one non-whitespace character. -/
def lastWelpIdx (l : List Char) : Option Nat :=
  (List.range l.length).foldl
    (fun acc i =>
      if startsWithL ['~', 'w', 'e', 'l', 'p'] (l.drop i) && decide (0 < i) &&
          !((l.drop (i + 5)).dropWhile isWs).isEmpty
        then some i else acc)
    none

/-- Matcher for the fallback header pattern. -/
def matchWelp (l : List Char) : Option (List (Option String)) :=
  match lastWelpIdx l with
  | some i =>
    some [some (String.mk (l.take i)), some (String.mk ((l.drop (i + 5)).dropWhile isWs))]
  | none => none

/-- Modelled from the spec: `match_python_construct` lives in
`kinda/grammar/python/matchers.py`, which is not among the sources.  Per §4.1
and §4.2 the Matcher tries the grammar table's patterns in a documented
precedence order, specific and structured constructs (imports, typed
declarations, conditionals) before generic reassignment and the fallback
header, and returns the first match with its captured groups. -/
def match_python_construct (s : String) : Option (String × List (Option String)) :=
  let l := s.data
  match matchKindaImport l with
  | some gs => some ("kinda_import", gs)
  | none =>
  match matchMaybeImport l with
  | some gs => some ("maybe_import", gs)
  | none =>
  match matchKindaInt l with
  | some gs => some ("kinda_int", gs)
  | none =>
  match matchKindaBinary l with
  | some gs => some ("kinda_binary", gs)
  | none =>
  match matchCondCall "~sometimes".data l with
  | some gs => some ("sometimes", gs)
  | none =>
  match matchCondCall "~maybe".data l with
  | some gs => some ("maybe", gs)
  | none =>
  match matchSortaPrint l with
  | some gs => some ("sorta_print", gs)
  | none =>
  match matchFuzzyReassign l with
  | some gs => some ("fuzzy_reassign", gs)
  | none =>
  match matchWelp l with
  | some gs => some ("welp", gs)
  | none => none

/-- Group access `groups[i]` (where present). -/
def rawGroup (gs : List (Option String)) (i : Nat) : Option String :=
  (gs.get? i).join

/-- `groups[i].strip() if groups and groups[i] else ""` — the Python
truthiness dance used by the transformer when reading optional groups. -/
def groupStr (gs : List (Option String)) (i : Nat) : String :=
  match gs.get? i with
  | some (some s) => if s = "" then "" else stripStr s
  | _ => ""

/-- Interpolation of a possibly missing group, as an f-string would show it. -/
def optStr : Option String → String
  | some s => s
  | none => "None"

/-- The operator characters of the fallback-header complexity check
(`transformer.py` lines 269-270). -/
def cxOps : List Char := ['(', ')', '+', '-', '*', '/', '=', '[', ']']

/-- The control-flow keywords of the fallback-header complexity check
(`transformer.py` lines 273-274). -/
def welpKeywords : List String :=
  ["if", "elif", "while", "for", "return", "yield", "assert", "del"]

/-- The complexity re-routing test for fallback headers
(`transformer.py` lines 263-277): parentheses, brackets,
arithmetic or assignment operators in either side, a primary that begins with
a control-flow keyword, or a fallback that ends with a colon. -/
def welpComplex (gs : List (Option String)) : Bool :=
  let p := groupStr gs 0
  let f := groupStr gs 1
  p.data.any (fun c => cxOps.contains c) ||
  f.data.any (fun c => cxOps.contains c) ||
  welpKeywords.any (fun kw => startsWithL (kw ++ " ").data (stripL p.data)) ||
  (match (stripL f.data).reverse with
   | ':' :: _ => true
   | _ => false)

/-- The Inline Composer applied to one captured group: `~ish` rewriting
followed by `~welp` rewriting (`transformer.py` lines 300-301). -/
def inlineCompose (s : String) : String × List String :=
  let a := transform_ish_constructs s.data
  let b := transform_welp_constructs a.1
  (String.mk b.1, a.2 ++ b.2)

/-- The group-processing loop of `transform_line`
(`transformer.py` lines 286-305): every group of a non-import construct is
re-run through the Inline Composer, except that for a fallback header only
the second group is rewritten, and only by the `~ish` composer. -/
def processGroupsAux (isWelp : Bool) (acc : List (Option String)) (hs : List String) :
    List (Option String) → List (Option String) × List String
  | [] => (acc, hs)
  | g :: rest =>
    match g with
    | some s =>
      if isWelp then
        if acc.length = 1 then
          let t := transform_ish_constructs s.data
          processGroupsAux isWelp (acc ++ [some (String.mk t.1)]) (hs ++ t.2) rest
        else processGroupsAux isWelp (acc ++ [some s]) hs rest
      else
        let t := inlineCompose s
        processGroupsAux isWelp (acc ++ [some t.1]) (hs ++ t.2) rest
    | none => processGroupsAux isWelp (acc ++ [none]) hs rest

/-- `module_name.split(".")[-1]`. -/
def lastDotSegment (s : String) : String :=
  String.mk ((s.data.reverse.takeWhile (fun c => c ≠ '.')).reverse)

/-- Split at the first `=` sign (Python `split("=", 1)`), the sign removed. -/
def splitAtFirstEq (l : List Char) : List Char × List Char :=
  let pre := l.takeWhile (fun c => c ≠ '=')
  (pre, l.drop (pre.length + 1))

/-- The construct dispatch of `transform_line`
(`transformer.py` lines 321-434): template substitution of the processed
groups plus the helper registrations of each branch. -/
def buildConstruct (key : String) (gs : List (Option String)) (stripped : String) :
    String × List String :=
  if key = "kinda_int" then
    if 2 ≤ gs.length then
      (optStr (rawGroup gs 0) ++ " = kinda_int(" ++ optStr (rawGroup gs 1) ++ ")",
        ["kinda_int"])
    else (stripped, [])
  else if key = "kinda_binary" then
    if 1 ≤ gs.length then
      let var := optStr (rawGroup gs 0)
      match rawGroup gs 1 with
      | some probs =>
        if probs ≠ "" then (var ++ " = kinda_binary(" ++ probs ++ ")", ["kinda_binary"])
        else (var ++ " = kinda_binary()", ["kinda_binary"])
      | none => (var ++ " = kinda_binary()", ["kinda_binary"])
    else (stripped, [])
  else if key = "sorta_print" then
    if 1 ≤ gs.length then
      ("sorta_print(" ++ optStr (rawGroup gs 0) ++ ")", ["sorta_print"])
    else (stripped, [])
  else if key = "sometimes" then
    let cond := groupStr gs 0
    (if cond ≠ "" then "if sometimes(" ++ cond ++ "):" else "if sometimes():",
      ["sometimes"])
  else if key = "maybe" then
    let cond := groupStr gs 0
    (if cond ≠ "" then "if maybe(" ++ cond ++ "):" else "if maybe():", ["maybe"])
  else if key = "fuzzy_reassign" then
    if 2 ≤ gs.length then
      let var := optStr (rawGroup gs 0)
      let val := optStr (rawGroup gs 1)
      (var ++ " = fuzzy_assign(\x27" ++ var ++ "\x27, " ++ val ++ ")", ["fuzzy_assign"])
    else (stripped, [])
  else if key = "kinda_import" then
    if 1 ≤ gs.length then
      let modl := optStr (rawGroup gs 0)
      match rawGroup gs 1 with
      | some a =>
        if a ≠ "" then
          (a ++ " = kinda_import(\x27" ++ modl ++ "\x27, alias=\x27" ++ a ++ "\x27)",
            ["kinda_import"])
        else
          (lastDotSegment modl ++ " = kinda_import(\x27" ++ modl ++ "\x27)",
            ["kinda_import"])
      | none =>
        (lastDotSegment modl ++ " = kinda_import(\x27" ++ modl ++ "\x27)",
          ["kinda_import"])
    else (stripped, [])
  else if key = "maybe_import" then
    if 1 ≤ gs.length then
      let modl := optStr (rawGroup gs 0)
      let alias? :=
        match rawGroup gs 1 with
        | some a => if a ≠ "" then some a else none
        | none => none
      let fb? :=
        match rawGroup gs 2 with
        | some f => if f ≠ "" then some f else none
        | none => none
      match alias?, fb? with
      | some a, some f =>
        (a ++ " = maybe_import(\x27" ++ modl ++ "\x27, alias=\x27" ++ a ++
          "\x27, fallback_module=\x27" ++ stripStr f ++ "\x27)", ["maybe_import"])
      | some a, none =>
        (a ++ " = maybe_import(\x27" ++ modl ++ "\x27, alias=\x27" ++ a ++ "\x27)",
          ["maybe_import"])
      | none, some f =>
        (lastDotSegment modl ++ " = maybe_import(\x27" ++ modl ++
          "\x27, fallback_module=\x27" ++ stripStr f ++ "\x27)", ["maybe_import"])
      | none, none =>
        (lastDotSegment modl ++ " = maybe_import(\x27" ++ modl ++ "\x27)",
          ["maybe_import"])
    else (stripped, [])
  else if key = "welp" then
    if 2 ≤ gs.length then
      let primary := stripStr (optStr (rawGroup gs 0))
      let fallback := stripStr (optStr (rawGroup gs 1))
      if containsSub ['='] primary.data && !startsWithL ['='] (stripL primary.data) then
        let parts := splitAtFirstEq primary.data
        (String.mk (stripL parts.1) ++ " = welp_fallback(lambda: " ++
          String.mk (stripL parts.2) ++ ", " ++ fallback ++ ")", ["welp_fallback"])
      else
        ("welp_fallback(lambda: " ++ primary ++ ", " ++ fallback ++ ")",
          ["welp_fallback"])
    else (stripped, [])
  else (stripped, [])

/-- Python `str.replace` (all occurrences, left to right). -/
def pyReplaceAux : Nat → List Char → List Char → List Char → List Char
  | 0, s, _, _ => s
  | _ + 1, [], _, _ => []
  | fuel + 1, c :: rest, pat, rep =>
    if pat.isPrefixOf (c :: rest) then
      rep ++ pyReplaceAux fuel ((c :: rest).drop pat.length) pat rep
    else c :: pyReplaceAux fuel rest pat rep

/-- Python `str.replace` wrapper guarding the empty pattern. -/
def pyReplace (s pat rep : List Char) : List Char :=
  if pat = [] then s else pyReplaceAux (s.length + 1) s pat rep

/-- The Inline-Composer-only processing of a whole line: the path
`transform_line` takes when no construct header claims the line
(`transformer.py` lines 308-319). -/
def inline_only (line : String) : List String × List String :=
  let a := transform_ish_constructs line.data
  let b := transform_welp_constructs a.1
  let t := String.mk b.1
  (if t ≠ line then [t] else [line], a.2 ++ b.2)

/-- `transform_line` (`transformer.py` lines 247-438): returns the emitted
lines and the helper names registered in `used_helpers` while the line was
processed. -/
def transform_line (line : String) : List String × List String :=
  let stripped := stripStr line
  if stripped = "" then ([""], [])
  else if startsWithL ['#'] stripped.data then ([line], [])
  else
    match match_python_construct stripped with
    | some (key, gs0) =>
      if key = "welp" && welpComplex gs0 then
        let a := transform_ish_constructs line.data
        let b := transform_welp_constructs a.1
        let t := String.mk b.1
        (if t ≠ line then [t] else [line], a.2 ++ b.2)
      else
        let pg :=
          if key = "kinda_import" || key = "maybe_import" then (gs0, ([] : List String))
          else processGroupsAux (key = "welp") [] [] gs0
        let bc := buildConstruct key pg.1 stripped
        ([String.mk (pyReplace line.data stripped.data bc.1.data)], pg.2 ++ bc.2)
    | none =>
      let a := transform_ish_constructs line.data
      let b := transform_welp_constructs a.1
      let t := String.mk b.1
      (if t ≠ line then [t] else [line], a.2 ++ b.2)

/-- `_process_python_indented_block` (`transformer.py` lines 86-130): consume
the lines of an indentation-delimited block.  Returns the emitted lines, the
helpers registered while transforming them, and the unconsumed remainder of
the input. -/
def process_python_indented_block (base : Nat) :
    List String → List String × List String × List String
  | [] => ([], [], [])
  | l :: rest =>
    if stripStr l = "" then
      let r := process_python_indented_block base rest
      (l :: r.1, r.2.1, r.2.2)
    else if lineIndent l ≤ base then ([], [], l :: rest)
    else
      let t := transform_line l
      let r := process_python_indented_block base rest
      (t.1 ++ r.1, t.2 ++ r.2.1, r.2.2)

/-- The first index at which an indentation-delimited block ends: the first
non-blank line whose indentation is at most the header's. -/
def dedentIdx (base : Nat) : List String → Nat
  | [] => 0
  | l :: rest =>
    if stripStr l ≠ "" ∧ lineIndent l ≤ base then 0 else dedentIdx base rest + 1

/-- `_validate_conditional_syntax` (`transformer.py` lines 518-538). -/
def validate_conditional (stripped : String) : Except String Unit :=
  if startsWithL "~sometimes".data stripped.data then
    if !startsWithL "~sometimes(".data stripped.data && !stripped.data.contains '(' then
      .error "~sometimes needs parentheses"
    else .ok ()
  else if startsWithL "~maybe".data stripped.data then
    if !startsWithL "~maybe import".data stripped.data && !stripped.data.contains '(' then
      .error "~maybe needs parentheses"
    else .ok ()
  else .ok ()

/-- `_process_conditional_block` (`transformer.py` lines 16-83): consume a
brace-delimited conditional block, recursing for nested conditional headers.
Returns emitted lines, registered helpers, and the unconsumed remainder. -/
def process_conditional_block (indent : String) :
    Nat → List String → Nat → Except String (List String × List String × List String)
  | 0, lines, _ => .ok ([], [], lines)
  | _ + 1, [], _ => .ok ([], [], [])
  | fuel + 1, line :: rest, braces =>
    let stripped := stripStr line
    if stripped = "\x7d" ∧ braces = 1 then .ok ([], [], rest)
    else
      let braces1 := if stripped = "\x7d" then braces - 1 else braces
      if stripped = "" ∨ startsWithL ['#'] stripped.data then
        match process_conditional_block indent fuel rest braces1 with
        | .ok r => .ok ((indent ++ line) :: r.1, r.2.1, r.2.2)
        | .error e => .error e
      else if startsWithL "~sometimes".data stripped.data ||
          startsWithL "~maybe".data stripped.data then
        match validate_conditional stripped with
        | .error e => .error e
        | .ok _ =>
          let t := transform_line line
          match process_conditional_block (indent ++ "    ") fuel rest 1 with
          | .error e => .error e
          | .ok nested =>
            match process_conditional_block indent fuel nested.2.2 braces1 with
            | .error e => .error e
            | .ok r =>
              .ok ((t.1.map (fun s => indent ++ s)) ++ nested.1 ++ r.1,
                t.2 ++ nested.2.1 ++ r.2.1, r.2.2)
      else
        let braces2 := if stripped.endsWith "\x7b" then braces1 + 1 else braces1
        let t := transform_line line
        match process_conditional_block indent fuel rest braces2 with
        | .ok r => .ok ((t.1.map (fun s => indent ++ s)) ++ r.1, t.2 ++ r.2.1, r.2.2)
        | .error e => .error e

/-- The main loop of `transform_file` (`transformer.py` lines 475-505) over
the list of input lines; returns the output lines and the helper names
registered during the run. -/
def transformFileAux : Nat → List String → Except String (List String × List String)
  | 0, _ => .ok ([], [])
  | _ + 1, [] => .ok ([], [])
  | fuel + 1, line :: rest =>
    let stripped := stripStr line
    if startsWithL "~sometimes".data stripped.data ||
        startsWithL "~maybe".data stripped.data then
      match validate_conditional stripped with
      | .error e => .error e
      | .ok _ =>
        let t := transform_line line
        if stripped.endsWith "\x7b" then
          match process_conditional_block "    " fuel rest 1 with
          | .error e => .error e
          | .ok b =>
            match transformFileAux fuel b.2.2 with
            | .error e => .error e
            | .ok r => .ok (t.1 ++ b.1 ++ r.1, t.2 ++ b.2.1 ++ r.2)
        else
          let b := process_python_indented_block (lineIndent line) rest
          match transformFileAux fuel b.2.2 with
          | .error e => .error e
          | .ok r => .ok (t.1 ++ b.1 ++ r.1, t.2 ++ b.2.1 ++ r.2)
    else
      let t := transform_line line
      match transformFileAux fuel rest with
      | .error e => .error e
      | .ok r => .ok (t.1 ++ r.1, t.2 ++ r.2)

/-- `used_helpers.add(h)`: the module-global set, modelled as a duplicate-free
list in insertion order. -/
def insertHelper (s : List String) (h : String) : List String :=
  if h ∈ s then s else s ++ [h]

/-- Insertion into an ascending list, for Python `sorted`. -/
def insertSorted (x : String) : List String → List String
  | [] => [x]
  | y :: rest => if x ≤ y then x :: y :: rest else y :: insertSorted x rest

/-- Python `sorted(used_helpers)`. -/
def sortHelpers (l : List String) : List String := l.foldr insertSorted []

/-- Python `sep.join(parts)`. -/
def joinWith (sep : String) : List String → String
  | [] => ""
  | [x] => x
  | x :: y :: rest => x ++ sep ++ joinWith sep (y :: rest)

/-- `transform_file` (`transformer.py` lines 464-515) on the decoded line
list of a file.  `used` is the content of the module-global `used_helpers`
set when the call starts; it is never cleared by the function, so the state
it returns (and from which the import header is generated) extends `used`
with the helpers this run registered. -/
def transform_file (used : List String) (lines : List String) :
    Except String (String × List String) :=
  match transformFileAux (2 * lines.length + 4) lines with
  | .error e => .error e
  | .ok (outs, adds) =>
    let used2 := adds.foldl insertHelper used
    let header :=
      if used2 = [] then ""
      else "from kinda.langs.python.runtime.fuzzy import " ++
        joinWith ", " (sortHelpers used2) ++ "\n\n"
    .ok (header ++ joinWith "\n" outs, used2)

/-- The deterministic weight logic of the generated `kinda_binary` runtime
helper (`constructs.py` lines 168-202), over exact rationals.  When the
supplied weights miss 1.0 by more than the 0.01 epsilon they are renormalized
by their total; a zero total makes the divisions raise `ZeroDivisionError`,
which the function's exception handler turns into a random fallback draw with
no normalized weights — modelled as `none`. -/
def kinda_binary_weights (pos neg neut : ℚ) : Option (ℚ × ℚ × ℚ) :=
  let total := pos + neg + neut
  if 1 / 100 < |total - 1| then
    if total = 0 then none
    else some (pos / total, neg / total, neut / total)
  else some (pos, neg, neut)

/-- Python values as far as the direct-execution semantics needs them. -/
inductive PyVal
  | pint : Int → PyVal
  | pfloat : ℚ → PyVal
  | pstr : String → PyVal
  | pbool : Bool → PyVal
  deriving DecidableEq, Repr

/-- The keyword blocklist of `evaluate` (`semantics.py` line 16). -/
def dangerousKeywords : List String := ["import", "exec", "eval", "open", "__"]

/-- `evaluate` (`semantics.py` lines 8-28): a blocked expression yields
`None`; otherwise the host `eval` runs, with every raised exception also
turned into `None`.  The host `eval` (with its exception outcomes) is the
parameter `ev`. -/
def evaluate (ev : String → Option PyVal) (expr : String) : Option PyVal :=
  if dangerousKeywords.any (fun k => containsSub k.data expr.data) then none
  else ev expr

/-- `isinstance(value, (int, float))`; Python booleans subclass `int`, so
they count as numeric too. -/
def isNumeric : PyVal → Bool
  | .pint _ => true
  | .pfloat _ => true
  | .pbool _ => true
  | _ => false

/-- `value += random.choice([-1, 0, 1])`, with the drawn noise a parameter;
a boolean operand is promoted to its integer value, as Python's `+` does. -/
def addNoise (d : Int) : PyVal → PyVal
  | .pint n => .pint (n + d)
  | .pfloat q => .pfloat (q + d)
  | .pbool b => .pint ((if b then 1 else 0) + d)
  | v => v

/-- Update of the interpreter environment `env[var] = value`. -/
def envSet : List (String × PyVal) → String → PyVal → List (String × PyVal)
  | [], var, v => [(var, v)]
  | (k, w) :: rest, var, v =>
    if k = var then (k, v) :: rest else (k, w) :: envSet rest var v

/-- `kinda_assign` (`semantics.py` lines 31-39): evaluate the expression; on
success fuzz numeric values by the drawn noise and bind the variable; when
evaluation failed or was blocked (`None`), only print and leave the
environment alone. -/
def kinda_assign (ev : String → Option PyVal) (noise : Int)
    (env : List (String × PyVal)) (var expr : String) : List (String × PyVal) :=
  match evaluate ev expr with
  | some v =>
    let v2 := if isNumeric v then addNoise noise v else v
    envSet env var v2
  | none => env

/-! ### Helper lemmas -/

theorem startsWith_tilde_false (m : List Char) (h : '~' ∉ m) (p : List Char) :
    startsWithL ('~' :: p) m = false := by
  cases m with
  | nil => rfl
  | cons c rest =>
    have hc : c ≠ '~' := fun e => h (e ▸ List.mem_cons_self c rest)
    have hb : ('~' == c) = false := beq_eq_false_iff_ne.mpr (fun e => hc e.symm)
    simp [startsWithL, List.isPrefixOf, hb]

theorem not_mem_drop {c : Char} {l : List Char} (h : c ∉ l) (n : Nat) :
    c ∉ l.drop n :=
  fun hc => h (List.drop_subset n l hc)

theorem matchIshValueAt_eq_none (l : List Char) (h : '~' ∉ l) :
    matchIshValueAt l = none := by
  unfold matchIshValueAt
  by_cases h1 : l.takeWhile Char.isDigit = []
  · simp [h1]
  · simp only [if_neg h1]
    rw [startsWith_tilde_false _ (not_mem_drop h _)]
    simp

theorem matchIshCompAt_eq_none (l : List Char) (h : '~' ∉ l) :
    matchIshCompAt l = none := by
  unfold matchIshCompAt
  by_cases h1 : l.takeWhile isWordChar = []
  · simp [h1]
  · simp only [if_neg h1]
    rw [startsWith_tilde_false _ (not_mem_drop (not_mem_drop h _) _)]
    simp

theorem matchIshCompValAt_eq_none (l : List Char) (h : '~' ∉ l) :
    matchIshCompValAt l = none := by
  unfold matchIshCompValAt
  by_cases h1 : l.takeWhile isWordChar = []
  · simp [h1]
  · simp only [if_neg h1]
    rw [startsWith_tilde_false _ (not_mem_drop (not_mem_drop h _) _)]
    simp

theorem findIshAux_eq_nil (fuel : Nat) :
    ∀ (l : List Char) (pos : Nat), '~' ∉ l → findIshAux fuel l pos = [] := by
  induction fuel with
  | zero => intro l pos _; simp [findIshAux]
  | succ fuel ih =>
    intro l pos h
    cases l with
    | nil => simp [findIshAux]
    | cons c rest =>
      have h2 : '~' ∉ rest := fun hr => h (List.mem_cons_of_mem c hr)
      unfold findIshAux
      rw [matchIshValueAt_eq_none _ h, matchIshCompValAt_eq_none _ h,
        matchIshCompAt_eq_none _ h]
      exact ih rest (pos + 1) h2

theorem find_ish_eq_nil {l : List Char} (h : '~' ∉ l) :
    find_ish_constructs l = [] :=
  findIshAux_eq_nil l.length l 0 h

theorem transform_ish_id {l : List Char} (h : '~' ∉ l) :
    transform_ish_constructs l = (l, []) := by
  unfold transform_ish_constructs
  rw [find_ish_eq_nil h]
  rfl

theorem findWelpAux_eq_nil (line : List Char) (h : '~' ∉ line) (fuel : Nat) :
    ∀ i, findWelpAux line fuel i = [] := by
  induction fuel with
  | zero => intro i; rfl
  | succ fuel ih =>
    intro i
    unfold findWelpAux
    by_cases hi : i < line.length
    · rw [if_pos hi, startsWith_tilde_false _ (not_mem_drop h _)]
      exact ih (i + 1)
    · rw [if_neg hi]

theorem find_welp_eq_nil {l : List Char} (h : '~' ∉ l) :
    find_welp_constructs l = [] :=
  findWelpAux_eq_nil l h (l.length + 1) 0

theorem transform_welp_id {l : List Char} (h : '~' ∉ l) :
    transform_welp_constructs l = (l, []) := by
  unfold transform_welp_constructs
  rw [find_welp_eq_nil h]
  rfl

theorem not_tilde_append {a b : List Char} (ha : '~' ∉ a) (hb : '~' ∉ b) :
    '~' ∉ a ++ b := by
  intro hm
  rcases List.mem_append.mp hm with hm | hm
  · exact ha hm
  · exact hb hm

theorem string_data_ne_nil {s : String} (h : s ≠ "") : s.data ≠ [] := by
  intro hd
  exact h (show s = "" from congrArg String.mk hd)

theorem isPrefixOf_self (l : List Char) : l.isPrefixOf l = true := by
  induction l with
  | nil => rfl
  | cons c rest ih => simp [List.isPrefixOf, ih]

theorem pyReplace_self (s r : List Char) (h : s ≠ []) : pyReplace s s r = r := by
  unfold pyReplace
  rw [if_neg h]
  cases s with
  | nil => exact absurd rfl h
  | cons c rest =>
    unfold pyReplaceAux
    rw [isPrefixOf_self]
    simp only [List.drop_length, if_true]
    have : pyReplaceAux (rest.length + 1) [] (c :: rest) r = [] := by
      cases rest.length + 1 <;> rfl
    simp [List.length_cons, this]

theorem stripL_of_stripStr_eq {line : String} (h : stripStr line = line) :
    stripL line.data = line.data := by
  have := congrArg String.data h
  simpa [stripStr] using this

theorem string_mk_data (s : String) : String.mk s.data = s := rfl

theorem not_tilde_string_append {a b : String} (ha : '~' ∉ a.data)
    (hb : '~' ∉ b.data) : '~' ∉ (a ++ b).data := by
  rw [String.data_append]
  exact not_tilde_append ha hb

theorem mem_foldl_insertHelper (adds : List String) :
    ∀ (s : List String) (x : String), x ∈ s → x ∈ adds.foldl insertHelper s := by
  induction adds with
  | nil => intro s x hx; exact hx
  | cons a rest ih =>
    intro s x hx
    apply ih
    unfold insertHelper
    by_cases ha : a ∈ s
    · rw [if_pos ha]; exact hx
    · rw [if_neg ha]; exact List.mem_append_left _ hx

/-! ### Claim theorems -/

/-- C10: for every variable name and expression string, if evaluation of the
expression fails or is blocked (`evaluate` returns `None`), the
direct-execution assignment `kinda_assign` leaves the interpreter environment
completely unchanged. -/
theorem c10_kinda_assign_env_unchanged (ev : String → Option PyVal) (noise : Int)
    (env : List (String × PyVal)) (var expr : String)
    (h : evaluate ev expr = none) :
    kinda_assign ev noise env var expr = env := by
  unfold kinda_assign
  rw [h]

/-- C10 witness: a concrete failing evaluation leaves a concrete environment
untouched. -/
theorem c10_kinda_assign_env_unchanged_witness :
    evaluate (fun _ => none) "q + 1" = none ∧
    kinda_assign (fun _ => none) 1 [("y", PyVal.pint 3)] "q" "q + 1" =
      [("y", PyVal.pint 3)] :=
  ⟨rfl, c10_kinda_assign_env_unchanged _ 1 _ "q" "q + 1" rfl⟩

/-- C9 counterexample: the all-zero triple is non-negative and misses 1.0 by
more than the epsilon, yet the code does not renormalize it — the divisions
raise and the helper falls back to a random draw (`none`), so the claim as
stated fails at `(0, 0, 0)`. -/
theorem c9_counterexample :
    (0:ℚ) ≤ 0 ∧ 1 / 100 < |(0:ℚ) + 0 + 0 - 1| ∧
      kinda_binary_weights 0 0 0 = none := by
  refine ⟨le_refl 0, by norm_num, ?_⟩
  unfold kinda_binary_weights
  norm_num

/-- C9 amended: for every triple of non-negative weights with positive sum
whose sum misses 1.0 by more than the 0.01 epsilon, `kinda_binary` divides
each weight by the total, so the effective weights sum to exactly 1 and the
pairwise ratios are preserved. -/
theorem c9_kinda_binary_renormalization (p n z : ℚ) (hp : 0 ≤ p) (hn : 0 ≤ n)
    (hz : 0 ≤ z) (hsum : 1 / 100 < |p + n + z - 1|) (hpos : 0 < p + n + z) :
    kinda_binary_weights p n z =
      some (p / (p + n + z), n / (p + n + z), z / (p + n + z)) ∧
    p / (p + n + z) + n / (p + n + z) + z / (p + n + z) = 1 ∧
    p / (p + n + z) * n = n / (p + n + z) * p ∧
    n / (p + n + z) * z = z / (p + n + z) * n ∧
    p / (p + n + z) * z = z / (p + n + z) * p := by
  have hne : p + n + z ≠ 0 := ne_of_gt hpos
  refine ⟨?_, ?_, ?_, ?_, ?_⟩
  · unfold kinda_binary_weights
    rw [if_pos hsum, if_neg hne]
  · field_simp
  · rw [div_mul_eq_mul_div, div_mul_eq_mul_div, mul_comm]
  · rw [div_mul_eq_mul_div, div_mul_eq_mul_div, mul_comm]
  · rw [div_mul_eq_mul_div, div_mul_eq_mul_div, mul_comm]

/-- C9 witness: weights summing to 3/2 are renormalized to thirds, which sum
to 1 and preserve the (equal) ratios. -/
theorem c9_kinda_binary_renormalization_witness :
    kinda_binary_weights (1/2) (1/2) (1/2) =
      some ((1:ℚ)/2 / (1/2 + 1/2 + 1/2), (1:ℚ)/2 / (1/2 + 1/2 + 1/2),
        (1:ℚ)/2 / (1/2 + 1/2 + 1/2)) ∧
    (1:ℚ)/2 / (1/2 + 1/2 + 1/2) + (1:ℚ)/2 / (1/2 + 1/2 + 1/2) +
      (1:ℚ)/2 / (1/2 + 1/2 + 1/2) = 1 ∧
    (1:ℚ)/2 / (1/2 + 1/2 + 1/2) * (1/2) = (1:ℚ)/2 / (1/2 + 1/2 + 1/2) * (1/2) ∧
    (1:ℚ)/2 / (1/2 + 1/2 + 1/2) * (1/2) = (1:ℚ)/2 / (1/2 + 1/2 + 1/2) * (1/2) ∧
    (1:ℚ)/2 / (1/2 + 1/2 + 1/2) * (1/2) = (1:ℚ)/2 / (1/2 + 1/2 + 1/2) * (1/2) :=
  c9_kinda_binary_renormalization (1/2) (1/2) (1/2) (by norm_num) (by norm_num)
    (by norm_num)
    (by
      rw [show ((1:ℚ)/2 + 1/2 + 1/2 - 1) = 1/2 by norm_num,
        abs_of_nonneg (by norm_num : (0:ℚ) ≤ 1/2)]
      norm_num)
    (by norm_num)

/-- C2 counterexample: two sequential `transform_file` calls in one process.
The first registers `sorta_print` in the module-global used-helper set; the
second input (`x = 1`) registers no helper at all, yet the header of the
second output still names `sorta_print` — the set is not fresh per
invocation. -/
theorem c2_counterexample :
    transform_file [] ["~sorta print(7)"] =
      Except.ok ("from kinda.langs.python.runtime.fuzzy import sorta_print\n\nsorta_print(7)",
        ["sorta_print"]) ∧
    (transform_line "x = 1").2 = [] ∧
    transform_file ["sorta_print"] ["x = 1"] =
      Except.ok ("from kinda.langs.python.runtime.fuzzy import sorta_print\n\nx = 1",
        ["sorta_print"]) := by
  refine ⟨rfl, rfl, rfl⟩

/-- C2 amended: the used-helper set is the module-global `used_helpers`,
which `transform_file` never clears: every helper present when a call starts
is still present in the state from which the call's import header is
generated. -/
theorem c2_used_helpers_persist (used : List String) (lines : List String)
    (out : String) (used2 : List String)
    (h : transform_file used lines = Except.ok (out, used2)) :
    ∀ x ∈ used, x ∈ used2 := by
  intro x hx
  unfold transform_file at h
  cases heq : transformFileAux (2 * lines.length + 4) lines with
  | error e => rw [heq] at h; exact absurd h (by simp)
  | ok r =>
    obtain ⟨outs, adds⟩ := r
    rw [heq] at h
    simp only [Except.ok.injEq, Prod.mk.injEq] at h
    rw [← h.2]
    exact mem_foldl_insertHelper _ _ _ hx

/-- C2 witness: the amended persistence applied to the concrete second call
of the counterexample. -/
theorem c2_used_helpers_persist_witness :
    "sorta_print" ∈ (["sorta_print"] : List String) :=
  c2_used_helpers_persist ["sorta_print"] ["x = 1"]
    "from kinda.langs.python.runtime.fuzzy import sorta_print\n\nx = 1"
    ["sorta_print"] rfl "sorta_print" (by decide)

theorem transform_line_inline (line : String)
    (hne : stripStr line ≠ "")
    (hcm : startsWithL ['#'] (stripStr line).data = false)
    (hm : match_python_construct (stripStr line) = none) :
    transform_line line = inline_only line := by
  unfold transform_line inline_only
  rw [if_neg hne, hcm]
  simp only [Bool.false_eq_true, if_false, hm]

/-- C8 counterexample: a whitespace-only line matches no construct header and
contains no inline sub-expression, yet `transform_line` normalizes it to the
empty line instead of passing it through unchanged. -/
theorem c8_counterexample :
    match_python_construct (stripStr "   ") = none ∧
    find_ish_constructs "   ".data = [] ∧
    find_welp_constructs "   ".data = [] ∧
    (transform_line "   ").1 = [""] ∧
    (transform_line "   ").1 ≠ ["   "] := by
  refine ⟨rfl, rfl, rfl, rfl, by decide⟩

/-- C8 amended: for every line whose stripped form is non-empty, that matches
no construct header and contains no inline `~ish` or `~welp` sub-expression,
`transform_line` returns exactly the input line; whitespace-only lines are the
one exception, normalizing to the empty line. -/
theorem c8_pass_through (line : String)
    (hne : stripStr line ≠ "")
    (hm : match_python_construct (stripStr line) = none)
    (hi : find_ish_constructs line.data = [])
    (hw : find_welp_constructs line.data = []) :
    (transform_line line).1 = [line] := by
  have h1 : transform_ish_constructs line.data = (line.data, []) := by
    unfold transform_ish_constructs
    rw [hi]
    rfl
  have h2 : transform_welp_constructs line.data = (line.data, []) := by
    unfold transform_welp_constructs
    rw [hw]
    rfl
  by_cases hcm : startsWithL ['#'] (stripStr line).data = true
  · unfold transform_line
    rw [if_neg hne, hcm]
    simp
  · have hcm2 : startsWithL ['#'] (stripStr line).data = false := by
      revert hcm
      cases startsWithL ['#'] (stripStr line).data <;> simp
    rw [transform_line_inline line hne hcm2 hm]
    unfold inline_only
    simp [h1, h2]

/-- C8 witness: a plain statement line passes through untouched. -/
theorem c8_pass_through_witness :
    (transform_line "total = compute(a, b)").1 = ["total = compute(a, b)"] :=
  c8_pass_through "total = compute(a, b)" (by decide) rfl rfl rfl

/-- C4: for every valid fuzzy-declaration line recognized as `kinda_int` with
captured name and initializer (both free of inline sub-constructs), the
transformer emits exactly the single line `name = kinda_int(INIT)` and
registers the `kinda_int` helper in the used-helper set. -/
theorem c4_kinda_int_declaration (line name init : String)
    (hstrip : stripStr line = line)
    (hne : line ≠ "")
    (hcm : startsWithL ['#'] line.data = false)
    (hm : match_python_construct line = some ("kinda_int", [some name, some init]))
    (hn : '~' ∉ name.data) (hi : '~' ∉ init.data) :
    (transform_line line).1 = [name ++ " = kinda_int(" ++ init ++ ")"] ∧
    (transform_line line).2 = ["kinda_int"] := by
  have hdata : line.data ≠ [] := string_data_ne_nil hne
  have hica : inlineCompose name = (name, []) := by
    simp [inlineCompose, transform_ish_id hn, transform_welp_id hn]
  have hicb : inlineCompose init = (init, []) := by
    simp [inlineCompose, transform_ish_id hi, transform_welp_id hi]
  have hpg : processGroupsAux false [] [] [some name, some init] =
      ([some name, some init], []) := by
    simp [processGroupsAux, hica, hicb]
  have hbc : buildConstruct "kinda_int" [some name, some init] line =
      (name ++ " = kinda_int(" ++ init ++ ")", ["kinda_int"]) := by
    simp [buildConstruct, rawGroup, optStr]
  unfold transform_line
  rw [hstrip, if_neg hne, hcm]
  simp only [Bool.false_eq_true, if_false, hm]
  simp only [show (("kinda_int" : String) = "welp") = False by simp,
    show (("kinda_int" : String) = "kinda_import") = False by simp,
    show (("kinda_int" : String) = "maybe_import") = False by simp]
  simp only [decide_False, Bool.false_and, Bool.false_eq_true, if_false,
    Bool.or_self, hpg, hbc]
  rw [pyReplace_self _ _ hdata]
  constructor <;> rfl

/-- C4 witness: the literal declaration line from the repository's syntax
reference transforms as claimed. -/
theorem c4_kinda_int_declaration_witness :
    (transform_line "~kinda int x = 42").1 = ["x = kinda_int(42)"] ∧
    (transform_line "~kinda int x = 42").2 = ["kinda_int"] :=
  c4_kinda_int_declaration "~kinda int x = 42" "x" "42" rfl (by decide) rfl rfl
    (by decide) (by decide)

/-- C3: for every line that the Matcher recognizes as a fallback (`~welp`)
header but whose primary or fallback expression is structurally complex —
parentheses, brackets, arithmetic or assignment operators, a primary starting
with a control-flow keyword, or a fallback ending in a colon — the header
match is discarded and the line is processed purely through inline
composition. -/
theorem c3_welp_complex_reroute (line : String) (gs : List (Option String))
    (hne : stripStr line ≠ "")
    (hcm : startsWithL ['#'] (stripStr line).data = false)
    (hm : match_python_construct (stripStr line) = some ("welp", gs))
    (hcx : welpComplex gs = true) :
    transform_line line = inline_only line := by
  unfold transform_line inline_only
  rw [if_neg hne, hcm]
  simp only [Bool.false_eq_true, if_false, hm, hcx]
  simp

/-- C3 witness: a fallback line whose primary contains call parentheses is
re-routed to inline composition, which preserves the assignment prefix. -/
theorem c3_welp_complex_reroute_witness :
    transform_line "result = foo() ~welp 9" = inline_only "result = foo() ~welp 9" ∧
    (inline_only "result = foo() ~welp 9").1 =
      ["result = welp_fallback(lambda: foo(), 9)"] :=
  ⟨c3_welp_complex_reroute "result = foo() ~welp 9"
      [some "result = foo() ", some "9"] (by decide) rfl rfl rfl, rfl⟩

/-- C1 counterexample: `x ~ish (5)` contains parentheses, which the claim
says forces the comparison rewrite; the code still treats it as a standalone
assignment because the line structurally matches `^name ~ish value$`. -/
theorem c1_counterexample :
    containsSub ['('] "x ~ish (5)".data = true ∧
    (transform_line "x ~ish (5)").1 = ["x = ish_value(x, (5))"] ∧
    (transform_line "x ~ish (5)").1 ≠ ["ish_comparison(x, (5))"] := by
  refine ⟨rfl, rfl, by decide⟩

/-- C1 amended: a bare `name ~ish value` line with no operator characters and
no conditional context rebinds `name` to a fuzzed `value`; a line in a
conditional context (an `if`/`elif`/`while` prefix, an ` if `/` and `/` or `
connective, or an arithmetic/comparison operator among `+ - * / == != < >`)
rewrites the sub-expression to `ish_comparison(name, value)`; a line that
carries an operator character without being in a conditional context — its
extra structure only parentheses, brackets, equals signs or commas — is a
comparison exactly when it fails to match `^name ~ish value$`: the third
conjunct proves the standalone-pattern override to an assignment, the fourth
the comparison rewrite when the pattern fails. -/
theorem c1_ish_assignment_vs_comparison :
    (∀ (line l r : String),
      stripStr line = line → line ≠ "" →
      startsWithL ['#'] line.data = false →
      match_python_construct line = none →
      find_ish_constructs line.data = [⟨IshKind.comp, l, r, 0, line.data.length⟩] →
      hasAnyOpChar line.data = false →
      ishInConditional line.data = false →
      '~' ∉ l.data → '~' ∉ r.data →
      (transform_line line).1 = [l ++ " = ish_value(" ++ l ++ ", " ++ r ++ ")"]) ∧
    (∀ (line l r : String) (s e : Nat),
      stripStr line = line → line ≠ "" →
      startsWithL ['#'] line.data = false →
      match_python_construct line = none →
      find_ish_constructs line.data = [⟨IshKind.comp, l, r, s, e⟩] →
      ishInConditional line.data = true →
      '~' ∉ line.data.take s → '~' ∉ line.data.drop e →
      '~' ∉ l.data → '~' ∉ r.data →
      (transform_line line).1 =
        [String.mk (line.data.take s ++
          ("ish_comparison(" ++ l ++ ", " ++ r ++ ")").data ++ line.data.drop e)]) ∧
    (∀ (line l r : String) (s e : Nat),
      stripStr line = line → line ≠ "" →
      startsWithL ['#'] line.data = false →
      match_python_construct line = none →
      find_ish_constructs line.data = [⟨IshKind.comp, l, r, s, e⟩] →
      hasAnyOpChar line.data = true →
      ishInConditional line.data = false →
      ishStandaloneRegex line.data l.data r.data = true →
      '~' ∉ line.data.take s → '~' ∉ line.data.drop e →
      '~' ∉ l.data → '~' ∉ r.data →
      (transform_line line).1 =
        [String.mk (line.data.take s ++
          (l ++ " = ish_value(" ++ l ++ ", " ++ r ++ ")").data ++ line.data.drop e)]) ∧
    (∀ (line l r : String) (s e : Nat),
      stripStr line = line → line ≠ "" →
      startsWithL ['#'] line.data = false →
      match_python_construct line = none →
      find_ish_constructs line.data = [⟨IshKind.comp, l, r, s, e⟩] →
      hasAnyOpChar line.data = true →
      ishInConditional line.data = false →
      ishStandaloneRegex line.data l.data r.data = false →
      '~' ∉ line.data.take s → '~' ∉ line.data.drop e →
      '~' ∉ l.data → '~' ∉ r.data →
      (transform_line line).1 =
        [String.mk (line.data.take s ++
          ("ish_comparison(" ++ l ++ ", " ++ r ++ ")").data ++ line.data.drop e)]) := by
  refine ⟨?_, ?_, ?_, ?_⟩
  · intro line l r hstrip hlne hcm hm hfind hop hcond hl hr
    have hne : stripStr line ≠ "" := by rw [hstrip]; exact hlne
    have hid : stripL line.data = line.data := stripL_of_stripStr_eq hstrip
    have hcm2 : startsWithL ['#'] (stripStr line).data = false := by
      rw [hstrip]; exact hcm
    have hm2 : match_python_construct (stripStr line) = none := by
      rw [hstrip]; exact hm
    have hrepl : ishReplacement line.data ⟨IshKind.comp, l, r, 0, line.data.length⟩ =
        ((l ++ " = ish_value(" ++ l ++ ", " ++ r ++ ")").data, ["ish_value"]) := by
      simp [ishReplacement, hid, ishStandaloneAssignment, hop, hcond]
    have ha : transform_ish_constructs line.data =
        ((l ++ " = ish_value(" ++ l ++ ", " ++ r ++ ")").data, ["ish_value"]) := by
      unfold transform_ish_constructs
      rw [hfind]
      unfold applyIshMatches
      simp only [List.reverse_cons, List.reverse_nil, List.nil_append,
        List.foldl_cons, List.foldl_nil]
      rw [hrepl]
      simp [List.drop_length]
    have hR : '~' ∉ (l ++ " = ish_value(" ++ l ++ ", " ++ r ++ ")").data :=
      not_tilde_string_append (not_tilde_string_append (not_tilde_string_append
        (not_tilde_string_append (not_tilde_string_append hl (by decide)) hl)
        (by decide)) hr) (by decide)
    have hb := transform_welp_id hR
    rw [transform_line_inline line hne hcm2 hm2]
    unfold inline_only
    simp only [ha, hb, string_mk_data]
    by_cases heq : (l ++ " = ish_value(" ++ l ++ ", " ++ r ++ ")") = line
    · rw [if_neg (not_not_intro heq), heq]
    · rw [if_pos heq]
  · intro line l r s e hstrip hlne hcm hm hfind hcond htk hdr hl hr
    have hne : stripStr line ≠ "" := by rw [hstrip]; exact hlne
    have hid : stripL line.data = line.data := stripL_of_stripStr_eq hstrip
    have hcm2 : startsWithL ['#'] (stripStr line).data = false := by
      rw [hstrip]; exact hcm
    have hm2 : match_python_construct (stripStr line) = none := by
      rw [hstrip]; exact hm
    have hrepl : ishReplacement line.data ⟨IshKind.comp, l, r, s, e⟩ =
        (("ish_comparison(" ++ l ++ ", " ++ r ++ ")").data, ["ish_comparison"]) := by
      simp [ishReplacement, hid, hcond]
    have ha : transform_ish_constructs line.data =
        (line.data.take s ++ ("ish_comparison(" ++ l ++ ", " ++ r ++ ")").data ++
          line.data.drop e, ["ish_comparison"]) := by
      unfold transform_ish_constructs
      rw [hfind]
      unfold applyIshMatches
      simp only [List.reverse_cons, List.reverse_nil, List.nil_append,
        List.foldl_cons, List.foldl_nil]
      rw [hrepl]
      simp
    have hR : '~' ∉ line.data.take s ++
        ("ish_comparison(" ++ l ++ ", " ++ r ++ ")").data ++ line.data.drop e := by
      refine not_tilde_append (not_tilde_append htk ?_) hdr
      exact not_tilde_string_append (not_tilde_string_append (not_tilde_string_append
        (not_tilde_string_append (by decide) hl) (by decide)) hr) (by decide)
    have hb := transform_welp_id hR
    rw [transform_line_inline line hne hcm2 hm2]
    unfold inline_only
    simp only [ha, hb, string_mk_data]
    by_cases heq : String.mk (line.data.take s ++
        ("ish_comparison(" ++ l ++ ", " ++ r ++ ")").data ++ line.data.drop e) = line
    · rw [if_neg (not_not_intro heq), heq]
    · rw [if_pos heq]
  · intro line l r s e hstrip hlne hcm hm hfind hop hcond hreg htk hdr hl hr
    have hne : stripStr line ≠ "" := by rw [hstrip]; exact hlne
    have hid : stripL line.data = line.data := stripL_of_stripStr_eq hstrip
    have hcm2 : startsWithL ['#'] (stripStr line).data = false := by
      rw [hstrip]; exact hcm
    have hm2 : match_python_construct (stripStr line) = none := by
      rw [hstrip]; exact hm
    have hrepl : ishReplacement line.data ⟨IshKind.comp, l, r, s, e⟩ =
        ((l ++ " = ish_value(" ++ l ++ ", " ++ r ++ ")").data, ["ish_value"]) := by
      simp [ishReplacement, hid, ishStandaloneAssignment, hop, hreg, hcond]
    have ha : transform_ish_constructs line.data =
        (line.data.take s ++ (l ++ " = ish_value(" ++ l ++ ", " ++ r ++ ")").data ++
          line.data.drop e, ["ish_value"]) := by
      unfold transform_ish_constructs
      rw [hfind]
      unfold applyIshMatches
      simp only [List.reverse_cons, List.reverse_nil, List.nil_append,
        List.foldl_cons, List.foldl_nil]
      rw [hrepl]
      simp
    have hR : '~' ∉ line.data.take s ++
        (l ++ " = ish_value(" ++ l ++ ", " ++ r ++ ")").data ++ line.data.drop e := by
      refine not_tilde_append (not_tilde_append htk ?_) hdr
      exact not_tilde_string_append (not_tilde_string_append (not_tilde_string_append
        (not_tilde_string_append (not_tilde_string_append hl (by decide)) hl)
        (by decide)) hr) (by decide)
    have hb := transform_welp_id hR
    rw [transform_line_inline line hne hcm2 hm2]
    unfold inline_only
    simp only [ha, hb, string_mk_data]
    by_cases heq : String.mk (line.data.take s ++
        (l ++ " = ish_value(" ++ l ++ ", " ++ r ++ ")").data ++ line.data.drop e) = line
    · rw [if_neg (not_not_intro heq), heq]
    · rw [if_pos heq]
  · intro line l r s e hstrip hlne hcm hm hfind hop hcond hreg htk hdr hl hr
    have hne : stripStr line ≠ "" := by rw [hstrip]; exact hlne
    have hid : stripL line.data = line.data := stripL_of_stripStr_eq hstrip
    have hcm2 : startsWithL ['#'] (stripStr line).data = false := by
      rw [hstrip]; exact hcm
    have hm2 : match_python_construct (stripStr line) = none := by
      rw [hstrip]; exact hm
    have hrepl : ishReplacement line.data ⟨IshKind.comp, l, r, s, e⟩ =
        (("ish_comparison(" ++ l ++ ", " ++ r ++ ")").data, ["ish_comparison"]) := by
      simp [ishReplacement, hid, ishStandaloneAssignment, hop, hreg, hcond]
    have ha : transform_ish_constructs line.data =
        (line.data.take s ++ ("ish_comparison(" ++ l ++ ", " ++ r ++ ")").data ++
          line.data.drop e, ["ish_comparison"]) := by
      unfold transform_ish_constructs
      rw [hfind]
      unfold applyIshMatches
      simp only [List.reverse_cons, List.reverse_nil, List.nil_append,
        List.foldl_cons, List.foldl_nil]
      rw [hrepl]
      simp
    have hR : '~' ∉ line.data.take s ++
        ("ish_comparison(" ++ l ++ ", " ++ r ++ ")").data ++ line.data.drop e := by
      refine not_tilde_append (not_tilde_append htk ?_) hdr
      exact not_tilde_string_append (not_tilde_string_append (not_tilde_string_append
        (not_tilde_string_append (by decide) hl) (by decide)) hr) (by decide)
    have hb := transform_welp_id hR
    rw [transform_line_inline line hne hcm2 hm2]
    unfold inline_only
    simp only [ha, hb, string_mk_data]
    by_cases heq : String.mk (line.data.take s ++
        ("ish_comparison(" ++ l ++ ", " ++ r ++ ")").data ++ line.data.drop e) = line
    · rw [if_neg (not_not_intro heq), heq]
    · rw [if_pos heq]

/-- C1 witness: all four branches of the disambiguation at concrete inputs —
`score ~ish 9` rebinds, `if x ~ish 5:` compares, `x ~ish (5)` carries an
operator character yet still rebinds because the standalone pattern matches,
and `x = y ~ish 5` carries an operator character, fails the standalone
pattern, and compares. -/
theorem c1_ish_assignment_vs_comparison_witness :
    (transform_line "score ~ish 9").1 = ["score = ish_value(score, 9)"] ∧
    (transform_line "if x ~ish 5:").1 = ["if ish_comparison(x, 5:)"] ∧
    (transform_line "x ~ish (5)").1 = ["x = ish_value(x, (5))"] ∧
    (transform_line "x = y ~ish 5").1 = ["x = ish_comparison(y, 5)"] := by
  refine ⟨?_, ?_, ?_, ?_⟩
  · exact c1_ish_assignment_vs_comparison.1 "score ~ish 9" "score" "9" rfl
      (by decide) rfl rfl rfl rfl rfl (by decide) (by decide)
  · have := c1_ish_assignment_vs_comparison.2.1 "if x ~ish 5:" "x" "5:" 3 12 rfl
      (by decide) rfl rfl rfl rfl (by decide) (by decide) (by decide) (by decide)
    rw [this]
    decide
  · have := c1_ish_assignment_vs_comparison.2.2.1 "x ~ish (5)" "x" "(5)" 0 10 rfl
      (by decide) rfl rfl rfl rfl rfl rfl (by decide) (by decide) (by decide)
      (by decide)
    rw [this]
    decide
  · have := c1_ish_assignment_vs_comparison.2.2.2 "x = y ~ish 5" "y" "5" 4 12 rfl
      (by decide) rfl rfl rfl rfl rfl rfl (by decide) (by decide) (by decide)
      (by decide)
    rw [this]
    decide

/-- C5: with two independent approximate-value matches on one line, the
right-to-left fold rewrites both in place: the rightmost splice happens
first, so the leftmost span's byte offsets stay valid whatever the lengths of
the replacement texts. -/
theorem c5_right_to_left_rewrite (line : String) (g1 g2 : String)
    (s1 e1 s2 e2 : Nat)
    (hfind : find_ish_constructs line.data =
      [⟨IshKind.value, g1, "", s1, e1⟩, ⟨IshKind.value, g2, "", s2, e2⟩])
    (h1 : s1 ≤ e1) (h12 : e1 ≤ s2) (h2 : s2 ≤ e2) (hlen : e2 ≤ line.data.length) :
    (transform_ish_constructs line.data).1 =
      line.data.take s1 ++ ("ish_value(" ++ g1 ++ ")").data ++
      ((line.data.take s2).drop e1 ++ ("ish_value(" ++ g2 ++ ")").data ++
        line.data.drop e2) := by
  have hlt : (line.data.take s2).length = s2 := by
    rw [List.length_take]
    exact min_eq_left (le_trans h2 hlen)
  have hA : s1 ≤ (line.data.take s2).length := by
    rw [hlt]; exact le_trans h1 h12
  have hB : s1 ≤ (line.data.take s2 ++ ("ish_value(" ++ g2 ++ ")").data).length := by
    rw [List.length_append]
    exact le_trans hA (Nat.le_add_right _ _)
  have hC : e1 ≤ (line.data.take s2).length := by rw [hlt]; exact h12
  have hD : e1 ≤ (line.data.take s2 ++ ("ish_value(" ++ g2 ++ ")").data).length := by
    rw [List.length_append]
    exact le_trans hC (Nat.le_add_right _ _)
  unfold transform_ish_constructs
  rw [hfind]
  unfold applyIshMatches
  simp only [List.reverse_cons, List.reverse_nil, List.nil_append, List.cons_append,
    List.foldl_cons, List.foldl_nil, ishReplacement]
  rw [List.take_append_of_le_length hB, List.take_append_of_le_length hA,
    List.take_take, min_eq_left (le_trans h1 h12),
    List.drop_append_of_le_length hD, List.drop_append_of_le_length hC]
  simp [List.append_assoc]

/-- C5 witness: a line with two approximate-value literals of different
widths rewrites both in place. -/
theorem c5_right_to_left_rewrite_witness :
    (transform_ish_constructs "a = 5~ish + 123~ish".data).1 =
      "a = ish_value(5) + ish_value(123)".data := by
  rw [c5_right_to_left_rewrite "a = 5~ish + 123~ish" "5" "123" 4 9 12 19 rfl
    (by decide) (by decide) (by decide) (by decide)]
  decide

/-- The group-processing loop for non-fallback constructs is pointwise inline
composition of the captured groups. -/
theorem processGroupsAux_fst (gs : List (Option String)) :
    ∀ acc hs, (processGroupsAux false acc hs gs).1 =
      acc ++ gs.map (Option.map (fun g => (inlineCompose g).1)) := by
  induction gs with
  | nil => intro acc hs; simp [processGroupsAux]
  | cons g rest ih =>
    intro acc hs
    cases g with
    | none => simp [processGroupsAux, ih]
    | some s => simp [processGroupsAux, ih]

/-- C6 counterexample: for a fallback header the primary captured group is
not passed through the Inline Composer — the emitted lambda still contains
the raw `x ~ish 5`, not its composed form. -/
theorem c6_counterexample :
    (transform_line "x ~ish 5 ~welp 9").1 = ["welp_fallback(lambda: x ~ish 5, 9)"] ∧
    (inlineCompose "x ~ish 5").1 = "x = ish_value(x, 5)" ∧
    (transform_line "x ~ish 5 ~welp 9").1 ≠
      ["welp_fallback(lambda: " ++ (inlineCompose "x ~ish 5").1 ++ ", " ++
        (inlineCompose "9").1 ++ ")"] := by
  refine ⟨rfl, rfl, by decide⟩

/-- C6 amended: the captured groups of a recognized construct header — not
the raw line — feed template substitution; the groups of the two import
constructs reach substitution textually unchanged; every other
non-fallback construct has each group re-run through the Inline Composer;
for a fallback header the primary group also reaches substitution unchanged
and only the fallback group is rewritten, by the `~ish` composer alone. -/
theorem c6_group_composition :
    (∀ (line key : String) (gs : List (Option String)),
      stripStr line ≠ "" →
      startsWithL ['#'] (stripStr line).data = false →
      match_python_construct (stripStr line) = some (key, gs) →
      (key = "kinda_import" ∨ key = "maybe_import") →
      transform_line line =
        ([String.mk (pyReplace line.data (stripStr line).data
            (buildConstruct key gs (stripStr line)).1.data)],
          (buildConstruct key gs (stripStr line)).2)) ∧
    (∀ (line key : String) (gs : List (Option String)),
      stripStr line ≠ "" →
      startsWithL ['#'] (stripStr line).data = false →
      match_python_construct (stripStr line) = some (key, gs) →
      key ≠ "kinda_import" → key ≠ "maybe_import" → key ≠ "welp" →
      (transform_line line).1 =
        [String.mk (pyReplace line.data (stripStr line).data
          (buildConstruct key (gs.map (Option.map (fun g => (inlineCompose g).1)))
            (stripStr line)).1.data)]) ∧
    (∀ (line a b : String),
      stripStr line ≠ "" →
      startsWithL ['#'] (stripStr line).data = false →
      match_python_construct (stripStr line) = some ("welp", [some a, some b]) →
      welpComplex [some a, some b] = false →
      (transform_line line).1 =
        [String.mk (pyReplace line.data (stripStr line).data
          (buildConstruct "welp"
            [some a, some (String.mk (transform_ish_constructs b.data).1)]
            (stripStr line)).1.data)]) := by
  refine ⟨?_, ?_, ?_⟩
  · intro line key gs hne hcm hm hk
    unfold transform_line
    rw [if_neg hne, hcm]
    simp only [Bool.false_eq_true, if_false, hm]
    rcases hk with hk | hk <;> subst hk <;> simp
  · intro line key gs hne hcm hm hk1 hk2 hk3
    unfold transform_line
    rw [if_neg hne, hcm]
    simp only [Bool.false_eq_true, if_false, hm, decide_eq_false hk1,
      decide_eq_false hk2, decide_eq_false hk3, Bool.false_and, Bool.false_or,
      Bool.or_false, if_false]
    rw [processGroupsAux_fst gs [] []]
    simp
  · intro line a b hne hcm hm hcx
    unfold transform_line
    rw [if_neg hne, hcm]
    simp only [Bool.false_eq_true, if_false, hm, hcx]
    simp [processGroupsAux]

/-- C6 witness: the three branches at concrete lines — an import header with
raw groups, a fuzzy reassignment with composed groups, a simple fallback
header with an unchanged primary group. -/
theorem c6_group_composition_witness :
    transform_line "~kinda import os" =
      ([String.mk (pyReplace "~kinda import os".data (stripStr "~kinda import os").data
          (buildConstruct "kinda_import" [some "os", none]
            (stripStr "~kinda import os")).1.data)],
        (buildConstruct "kinda_import" [some "os", none]
          (stripStr "~kinda import os")).2) ∧
    (transform_line "value ~= 100~ish").1 =
      [String.mk (pyReplace "value ~= 100~ish".data (stripStr "value ~= 100~ish").data
        (buildConstruct "fuzzy_reassign"
          (([some "value", some "100~ish"] : List (Option String)).map
            (Option.map (fun g => (inlineCompose g).1)))
          (stripStr "value ~= 100~ish")).1.data)] ∧
    (transform_line "x ~welp 9").1 =
      [String.mk (pyReplace "x ~welp 9".data (stripStr "x ~welp 9").data
        (buildConstruct "welp"
          [some "x ", some (String.mk (transform_ish_constructs "9".data).1)]
          (stripStr "x ~welp 9")).1.data)] := by
  refine ⟨?_, ?_, ?_⟩
  · exact c6_group_composition.1 "~kinda import os" "kinda_import" [some "os", none]
      (by decide) rfl rfl (Or.inl rfl)
  · exact c6_group_composition.2.1 "value ~= 100~ish" "fuzzy_reassign"
      [some "value", some "100~ish"] (by decide) rfl rfl (by decide) (by decide)
      (by decide)
  · exact c6_group_composition.2.2 "x ~welp 9" "x " "9" (by decide) rfl rfl rfl

/-- C7: the indentation-delimited block processor consumes exactly the lines
before the first non-blank line whose indentation is at most the header's;
every consumed line is blank or strictly deeper; the dedent line, when it
exists, is non-blank with indentation at most the header's and is returned
unconsumed for the caller to re-process. -/
theorem c7_indented_block (base : Nat) (lines : List String) :
    (process_python_indented_block base lines).2.2 =
      lines.drop (dedentIdx base lines) ∧
    (process_python_indented_block base lines).1 =
      ((lines.take (dedentIdx base lines)).map
        (fun l => if stripStr l = "" then [l] else (transform_line l).1)).flatten ∧
    (∀ j, j < dedentIdx base lines → ∀ l, lines.get? j = some l →
      stripStr l = "" ∨ base < lineIndent l) ∧
    (∀ l, lines.get? (dedentIdx base lines) = some l →
      stripStr l ≠ "" ∧ lineIndent l ≤ base) := by
  induction lines with
  | nil =>
    refine ⟨rfl, rfl, ?_, ?_⟩
    · intro j hj l hget
      simp [dedentIdx] at hj
    · intro l hget
      simp at hget
  | cons l rest ih =>
    obtain ⟨ih1, ih2, ih3, ih4⟩ := ih
    by_cases h1 : stripStr l = ""
    · have hc : ¬(stripStr l ≠ "" ∧ lineIndent l ≤ base) := fun hh => hh.1 h1
      refine ⟨?_, ?_, ?_, ?_⟩
      · simp only [process_python_indented_block, dedentIdx, if_pos h1, if_neg hc,
          List.drop_succ_cons]
        exact ih1
      · simp only [process_python_indented_block, dedentIdx, if_pos h1, if_neg hc,
          List.take_succ_cons, List.map_cons, List.flatten_cons]
        rw [ih2]
        rfl
      · intro j hj l2 hget
        simp only [dedentIdx, if_neg hc] at hj
        cases j with
        | zero =>
          simp only [List.get?] at hget
          cases hget
          exact Or.inl h1
        | succ n =>
          simp only [List.get?] at hget
          exact ih3 n (by omega) l2 hget
      · intro l2 hget
        simp only [dedentIdx, if_neg hc, List.get?] at hget
        exact ih4 l2 hget
    · by_cases h2 : lineIndent l ≤ base
      · have hc : stripStr l ≠ "" ∧ lineIndent l ≤ base := ⟨h1, h2⟩
        refine ⟨?_, ?_, ?_, ?_⟩
        · simp only [process_python_indented_block, dedentIdx, if_neg h1, if_pos hc,
            if_pos h2, List.drop_zero]
        · simp only [process_python_indented_block, dedentIdx, if_neg h1, if_pos hc,
            if_pos h2, List.take_zero, List.map_nil, List.flatten_nil]
        · intro j hj l2 hget
          simp only [dedentIdx, if_pos hc] at hj
          omega
        · intro l2 hget
          simp only [dedentIdx, if_pos hc, List.get?] at hget
          cases hget
          exact ⟨h1, h2⟩
      · have hc : ¬(stripStr l ≠ "" ∧ lineIndent l ≤ base) := fun hh => h2 hh.2
        refine ⟨?_, ?_, ?_, ?_⟩
        · simp only [process_python_indented_block, dedentIdx, if_neg h1, if_neg hc,
            if_neg h2, List.drop_succ_cons]
          exact ih1
        · simp only [process_python_indented_block, dedentIdx, if_neg h1, if_neg hc,
            if_neg h2, List.take_succ_cons, List.map_cons, List.flatten_cons]
          rw [ih2]
        · intro j hj l2 hget
          simp only [dedentIdx, if_neg hc] at hj
          cases j with
          | zero =>
            simp only [List.get?] at hget
            cases hget
            exact Or.inr (by omega)
          | succ n =>
            simp only [List.get?] at hget
            exact ih3 n (by omega) l2 hget
        · intro l2 hget
          simp only [dedentIdx, if_neg hc, List.get?] at hget
          exact ih4 l2 hget

/-- C7 witness: a concrete indented block stops at the dedent line `c = 3`
and returns it unconsumed. -/
theorem c7_indented_block_witness :
    (process_python_indented_block 0
        ["    a = 1", "", "    b = 2", "c = 3", "    d = 4"]).2.2 =
      ["c = 3", "    d = 4"] ∧
    (stripStr "c = 3" ≠ "" ∧ lineIndent "c = 3" ≤ 0) := by
  have h := c7_indented_block 0 ["    a = 1", "", "    b = 2", "c = 3", "    d = 4"]
  exact ⟨h.1.trans (by decide), h.2.2.2 "c = 3" (by decide)⟩

end Kinda
